import Mathlib

/-!
# Drive notifier for macOS (`mega/osx/drivenotifyosx.h`)

A shallow embedding of the header `include/mega/osx/drivenotifyosx.h`:

* `CFUUIDBytes`, `memcmp` and the set comparator `detail::UUIDLess`;
* `std::set<CFUUIDBytes, detail::UUIDLess>` as a list kept strictly ascending
  for the comparator, searched with the comparator only;
* `UniqueCFRef` over `std::unique_ptr<T, CoreFoundationDeleter>`;
* the abstract class `MediaTypeCallbacks`, its virtual dispatch and its three
  static trampolines;
* the two concrete strategies, `PhysicalMediaCallbacks` and
  `NetworkDriveCallbacks`.

The header only declares the handlers of the two concrete strategies; their
bodies live in a translation unit that is not part of the sources at hand.
-/

namespace mega

/-! ## Identifiers and their comparator -/

/-- The CoreFoundation struct `CFUUIDBytes`: sixteen `UInt8` members
`byte0 … byte15`, laid out consecutively. -/
structure CFUUIDBytes where
  byte0 : Fin 256
  byte1 : Fin 256
  byte2 : Fin 256
  byte3 : Fin 256
  byte4 : Fin 256
  byte5 : Fin 256
  byte6 : Fin 256
  byte7 : Fin 256
  byte8 : Fin 256
  byte9 : Fin 256
  byte10 : Fin 256
  byte11 : Fin 256
  byte12 : Fin 256
  byte13 : Fin 256
  byte14 : Fin 256
  byte15 : Fin 256
  deriving DecidableEq, Repr

namespace CFUUIDBytes

/-- The object representation of a `CFUUIDBytes`, what `&u` points at: its
`sizeof(CFUUIDBytes) = 16` bytes in address order, each an unsigned char. -/
def toBytes (u : CFUUIDBytes) : List Nat :=
  [u.byte0.val, u.byte1.val, u.byte2.val, u.byte3.val,
   u.byte4.val, u.byte5.val, u.byte6.val, u.byte7.val,
   u.byte8.val, u.byte9.val, u.byte10.val, u.byte11.val,
   u.byte12.val, u.byte13.val, u.byte14.val, u.byte15.val]

/-- Byte `i` of the identifier as an unsigned 8-bit value (`0` past the end). -/
def byte (u : CFUUIDBytes) (i : Nat) : Nat := u.toBytes.getD i 0

/-- An identifier whose bytes are all zero except the last. -/
def ofLast (b : Fin 256) : CFUUIDBytes :=
  ⟨0, 0, 0, 0, 0, 0, 0, 0, 0, 0, 0, 0, 0, 0, 0, b⟩

end CFUUIDBytes

/-- The size in bytes of a `CFUUIDBytes`. -/
def sizeofCFUUIDBytes : Nat := 16

/-- The C library's `memcmp(p, q, n)` on two byte sequences: the bytes are
compared as unsigned chars from the lowest address, and the sign of the result
is the sign of the difference of the first pair that differs; `0` when the
first `n` bytes agree. -/
def memcmp : List Nat → List Nat → Nat → Int
  | _, _, 0 => 0
  | x :: xs, y :: ys, n + 1 =>
    if x = y then memcmp xs ys n else (x : Int) - (y : Int)
  | _, _, _ + 1 => 0

namespace detail

/-- The comparator `detail::UUIDLess::operator()`:
`return std::memcmp(&u1, &u2, sizeof(CFUUIDBytes)) < 0;`. -/
def UUIDLess (u1 u2 : CFUUIDBytes) : Bool :=
  decide (memcmp u1.toBytes u2.toBytes sizeofCFUUIDBytes < 0)

end detail

/-! ## `std::set<CFUUIDBytes, detail::UUIDLess>` -/

/-- The container `std::set<CFUUIDBytes, detail::UUIDLess>`, as the list of its
elements in iteration order. A set built by the operations below from the empty
set is strictly ascending for `detail::UUIDLess` (`UUIDSet.WF`). -/
abbrev UUIDSet := List CFUUIDBytes

namespace UUIDSet

/-- The key equivalence of an ordered container: `a` and `b` occupy the same
entry when `!comp(a, b) && !comp(b, a)`. -/
def equiv (a b : CFUUIDBytes) : Bool :=
  !detail.UUIDLess a b && !detail.UUIDLess b a

/-- The container invariant: elements strictly ascending for the comparator. -/
def WF (s : UUIDSet) : Prop :=
  List.Pairwise (fun a b => detail.UUIDLess a b = true) s

/-- The empty container. -/
def empty : UUIDSet := []

/-- The member `insert(key)`: the key is placed at its position in the order
unless an equivalent key is already there, in which case nothing changes. -/
def insert (x : CFUUIDBytes) : UUIDSet → UUIDSet
  | [] => [x]
  | y :: ys =>
    if detail.UUIDLess x y then x :: y :: ys
    else if detail.UUIDLess y x then y :: insert x ys
    else y :: ys

/-- The test `find(key) != end()`: some element is equivalent to the key. -/
def contains (x : CFUUIDBytes) (s : UUIDSet) : Bool :=
  s.any (fun y => equiv x y)

/-- The member `erase(key)`: the elements equivalent to the key are removed. -/
def erase (x : CFUUIDBytes) (s : UUIDSet) : UUIDSet :=
  s.filter (fun y => !equiv x y)

/-- The member `size()`. -/
def size (s : UUIDSet) : Nat := s.length

end UUIDSet

/-! ## Reference-managed handle -/

/-- A CoreFoundation reference (`CFTypeRef`, `CFDictionaryRef`, …) as an
address; `0` is the null pointer. -/
abbrev CFTypeRef := Nat

/-- The host's memory as far as ownership is concerned: the `CFRelease` calls
made so far, oldest first. -/
abbrev ReleaseLog := List CFTypeRef

/-- The host call `CFRelease(cf)`: one reference on `cf` is given up. -/
def CFRelease (cf : CFTypeRef) (log : ReleaseLog) : ReleaseLog := log ++ [cf]

namespace detail

/-- The deleter `detail::CoreFoundationDeleter::operator()`: `CFRelease(cf);`. -/
def CoreFoundationDeleter (cf : CFTypeRef) (log : ReleaseLog) : ReleaseLog :=
  CFRelease cf log

/-- The type `UniqueCFRefImpl<T*>::type`, a
`std::unique_ptr<T, CoreFoundationDeleter>`: the stored pointer. -/
structure UniquePtr where
  ptr : CFTypeRef
  deriving DecidableEq, Repr

/-- The member `std::unique_ptr::get()`. -/
def UniquePtr.get (p : UniquePtr) : CFTypeRef := p.ptr

/-- The destructor of `std::unique_ptr`: the deleter is called on the stored
pointer when that pointer is not null, and nothing happens otherwise. -/
def UniquePtr.destroy (p : UniquePtr) (log : ReleaseLog) : ReleaseLog :=
  if p.get = 0 then log else CoreFoundationDeleter p.get log

end detail

/-- The class template `UniqueCFRef<T>`: its only member is `Ptr mPtr`. -/
structure UniqueCFRef where
  mPtr : detail.UniquePtr
  deriving DecidableEq, Repr

namespace UniqueCFRef

/-- The constructor `UniqueCFRef(pointer p) noexcept : mPtr(p, {})`. -/
def ofPointer (p : CFTypeRef) : UniqueCFRef := ⟨⟨p⟩⟩

/-- The conversion `operator pointer() const noexcept`: `return mPtr.get();`. -/
def toPointer (r : UniqueCFRef) : CFTypeRef := r.mPtr.get

/-- The conversion `operator bool() const noexcept`, whose body is
`return mPtr;`: the non-null test of `std::unique_ptr` that this body asks for.
Nothing in the header calls this member, and no handler depends on it. -/
def toBool (r : UniqueCFRef) : Bool := decide (r.mPtr.get ≠ 0)

/-- The implicit destructor of `UniqueCFRef`: it destroys the member `mPtr`. -/
def destroy (r : UniqueCFRef) (log : ReleaseLog) : ReleaseLog := r.mPtr.destroy log

/-- A whole lifetime of a handle: it is constructed from `p`, converted to the
raw pointer `uses` times, and destroyed. The result is the list of pointers the
conversions returned and the release log after the destruction. -/
def lifetime (p : CFTypeRef) (uses : Nat) (log : ReleaseLog) :
    List CFTypeRef × ReleaseLog :=
  let r := ofPointer p
  ((List.range uses).map (fun _ => r.toPointer), r.destroy log)

end UniqueCFRef

/-! ## Disks and their descriptions -/

/-- The description of a disk, the dictionary `DADiskCopyDescription` returns,
read through the keys the strategies consume: `DAMediaUUID`, `DAVolumePath`,
`DAVolumeName` and `DADeviceProtocol`. A key that is absent reads `none`. -/
structure DiskDescription where
  mediaUUID : CFUUIDBytes
  volumePath : Option String
  volumeName : Option String
  deviceProtocol : Option String
  deriving DecidableEq, Repr

/-- A disk as a callback receives it (`DADiskRef`). A description is a snapshot
that does not change during one callback, so the disk handed to a callback is
given by the snapshot the host would return for it during that callback. -/
structure DADiskRef where
  description : DiskDescription
  deriving DecidableEq, Repr

/-- The host call `DADiskCopyDescription(disk)`. -/
def DADiskCopyDescription (disk : DADiskRef) : DiskDescription := disk.description

/-- A `CFArrayRef` of description keys; `none` is the null pointer. -/
abbrev CFArrayRef := Option (List String)

/-- The boolean media keys of a description the host matches on:
`DAMediaWhole`, `DAMediaLeaf`, `DAMediaRemovable`, `DAMediaEjectable` and
`DAMediaNetwork`. -/
structure MediaFlags where
  whole : Bool
  leaf : Bool
  removable : Bool
  ejectable : Bool
  network : Bool
  deriving DecidableEq, Repr

/-- A match filter submitted to the host (the `CFDictionaryRef` that
`matchingDict` returns), as the set of disks it lets through. -/
abbrev MatchingDict := MediaFlags → Bool

/-- The opaque `void* context` given at registration. -/
abbrev Context := Nat

/-! ## The abstract strategy `MediaTypeCallbacks` -/

/-- An object of (a class derived from) `MediaTypeCallbacks`, as the table of
its virtual member functions after dispatch. `σ` is the state the handlers may
change: the members of the strategy and whatever `context` gives access to. The
`const` members read the state and return a value. -/
structure MediaTypeCallbacks (σ : Type) where
  matchingDict : MatchingDict
  keysToMonitor : CFArrayRef
  shouldNotify : σ → DiskDescription → Bool
  onDiskAppearedImpl : DADiskRef → Context → σ → σ
  onDiskDisappearedImpl : DADiskRef → Context → σ → σ
  onDiskDescriptionChangedImpl : DADiskRef → CFArrayRef → Context → σ → σ

/-- The virtual member functions a class derived from `MediaTypeCallbacks`
defines itself; `none` where the derived class declares no override. -/
structure Overrides (σ : Type) where
  matchingDict : Option MatchingDict
  keysToMonitor : Option CFArrayRef
  shouldNotify : Option (σ → DiskDescription → Bool)
  onDiskAppearedImpl : Option (DADiskRef → Context → σ → σ)
  onDiskDisappearedImpl : Option (DADiskRef → Context → σ → σ)
  onDiskDescriptionChangedImpl : Option (DADiskRef → CFArrayRef → Context → σ → σ)

namespace MediaTypeCallbacks

/-- The body of the base class for `keysToMonitor`: `return nullptr;`. -/
def keysToMonitorBase : CFArrayRef := none

/-- The body of the base class for `onDiskDescriptionChangedImpl`: empty. -/
def onDiskDescriptionChangedImplBase {σ : Type}
    (_disk : DADiskRef) (_changedKeys : CFArrayRef) (_context : Context) (s : σ) : σ := s

/-- Virtual dispatch for an object of a derived class. `matchingDict`,
`shouldNotify(CFDictionaryRef)`, `onDiskAppearedImpl` and
`onDiskDisappearedImpl` are pure virtual (`= 0`) in the base class: a class that
leaves one of them out is abstract and has no objects. `keysToMonitor` and
`onDiskDescriptionChangedImpl` fall back on the bodies of the base class. -/
def instantiate {σ : Type} (o : Overrides σ) : Option (MediaTypeCallbacks σ) :=
  match o.matchingDict, o.shouldNotify, o.onDiskAppearedImpl, o.onDiskDisappearedImpl with
  | some md, some sn, some app, some dis =>
    some
      { matchingDict := md
        keysToMonitor := o.keysToMonitor.getD keysToMonitorBase
        shouldNotify := sn
        onDiskAppearedImpl := app
        onDiskDisappearedImpl := dis
        onDiskDescriptionChangedImpl :=
          o.onDiskDescriptionChangedImpl.getD onDiskDescriptionChangedImplBase }
  | _, _, _, _ => none

/-- The non-virtual overload `shouldNotify(DADiskRef disk)`:
`return shouldNotify(UniqueCFRef<CFDictionaryRef>(DADiskCopyDescription(disk)));`. -/
def shouldNotifyDisk {σ : Type} (self : MediaTypeCallbacks σ) (s : σ) (disk : DADiskRef) : Bool :=
  self.shouldNotify s (DADiskCopyDescription disk)

/-- The static trampoline `onDiskAppeared(disk, context)`. `castSelf` recovers
the strategy from the context pointer. -/
def onDiskAppeared {σ : Type} (castSelf : Context → MediaTypeCallbacks σ)
    (disk : DADiskRef) (context : Context) (s : σ) : σ :=
  let self := castSelf context
  if !self.shouldNotifyDisk s disk then s
  else self.onDiskAppearedImpl disk context s

/-- The static trampoline `onDiskDisappeared(disk, context)`. -/
def onDiskDisappeared {σ : Type} (castSelf : Context → MediaTypeCallbacks σ)
    (disk : DADiskRef) (context : Context) (s : σ) : σ :=
  let self := castSelf context
  if !self.shouldNotifyDisk s disk then s
  else self.onDiskDisappearedImpl disk context s

/-- The static trampoline `onDiskDescriptionChanged(disk, changedKeys, context)`. -/
def onDiskDescriptionChanged {σ : Type} (castSelf : Context → MediaTypeCallbacks σ)
    (disk : DADiskRef) (changedKeys : CFArrayRef) (context : Context) (s : σ) : σ :=
  let self := castSelf context
  if !self.shouldNotifyDisk s disk then s
  else self.onDiskDescriptionChangedImpl disk changedKeys context s

end MediaTypeCallbacks

/-- One invocation of a typed handler, with the arguments it received. -/
inductive ImplCall where
  | appeared (disk : DADiskRef) (context : Context)
  | disappeared (disk : DADiskRef) (context : Context)
  | descriptionChanged (disk : DADiskRef) (changedKeys : CFArrayRef) (context : Context)
  deriving DecidableEq, Repr

/-- The same strategy with a recorder next to its state: every invocation of a
typed handler is appended to the record, and nothing else changes. -/
def MediaTypeCallbacks.recording {σ : Type} (cb : MediaTypeCallbacks σ) :
    MediaTypeCallbacks (σ × List ImplCall) :=
  { matchingDict := cb.matchingDict
    keysToMonitor := cb.keysToMonitor
    shouldNotify := fun s d => cb.shouldNotify s.1 d
    onDiskAppearedImpl := fun disk ctx s =>
      (cb.onDiskAppearedImpl disk ctx s.1, s.2 ++ [ImplCall.appeared disk ctx])
    onDiskDisappearedImpl := fun disk ctx s =>
      (cb.onDiskDisappearedImpl disk ctx s.1, s.2 ++ [ImplCall.disappeared disk ctx])
    onDiskDescriptionChangedImpl := fun disk keys ctx s =>
      (cb.onDiskDescriptionChangedImpl disk keys ctx s.1,
        s.2 ++ [ImplCall.descriptionChanged disk keys ctx]) }

/-! ## Drive records and the state of the notifier -/

/-- The media family of a drive record. -/
inductive DriveKind where
  | physical
  | network
  deriving DecidableEq, Repr

/-- The event of a drive record. -/
inductive DriveEvent where
  | added
  | removed
  deriving DecidableEq, Repr

/-- The record the core emits for a drive. -/
structure DriveRecord where
  mountPath : String
  displayName : String
  kind : DriveKind
  event : DriveEvent
  deriving DecidableEq, Repr

/-- The state the handlers of the physical strategy act on: its member
`mDisksPendingPath` and, behind `context`, the outbound queue of emitted
records (oldest first). -/
structure NotifierState where
  mDisksPendingPath : UUIDSet
  emitted : List DriveRecord
  deriving DecidableEq, Repr

/-- The state right after construction: nothing pending, nothing emitted. -/
def NotifierState.initial : NotifierState := ⟨UUIDSet.empty, []⟩

/-! ## The physical strategy `PhysicalMediaCallbacks` -/

/-- Modelled from the spec: the "last path component" of a path given as
characters, taken as its last non-empty component; `last` is the last complete
non-empty component so far, `cur` the component being read. -/
def lastPathComponentAux : List Char → List Char → List Char → List Char
  | last, cur, [] => if cur.isEmpty then last else cur
  | last, cur, c :: cs =>
    if c = '/' then lastPathComponentAux (if cur.isEmpty then last else cur) [] cs
    else lastPathComponentAux last (cur ++ [c]) cs

/-- Modelled from the spec: the "last path component" of a mount path. -/
def lastPathComponent (p : String) : String :=
  String.mk (lastPathComponentAux [] [] p.data)

namespace PhysicalMediaCallbacks

/-- Modelled from the spec: the body of `PhysicalMediaCallbacks::shouldNotify`
is not in the header. The spec: reject any disk whose protocol description key
equals the literal string "Virtual Interface". -/
def shouldNotify (d : DiskDescription) : Bool :=
  d.deviceProtocol != some "Virtual Interface"

/-- Modelled from the spec: the mount path of a description when one is
"present and non-empty". -/
def mountPath (d : DiskDescription) : Option String :=
  match d.volumePath with
  | some p => if p = "" then none else some p
  | none => none

/-- Modelled from the spec: the display name, synthesized "from the volume-name
key (falling back to the last path component if absent)". -/
def displayName (d : DiskDescription) (path : String) : String :=
  match d.volumeName with
  | some n => n
  | none => lastPathComponent path

/-- Modelled from the spec: the `Added` record for a description with mount
path `path`. -/
def addedRecord (d : DiskDescription) (path : String) : DriveRecord :=
  { mountPath := path, displayName := displayName d path,
    kind := DriveKind.physical, event := DriveEvent.added }

/-- Modelled from the spec: the `Removed` record, "carrying the last-known mount
path", which is the volume path of the description at hand (empty when the
description has none: the strategy keeps no path of its own). -/
def removedRecord (d : DiskDescription) : DriveRecord :=
  { mountPath := d.volumePath.getD "", displayName := displayName d (d.volumePath.getD ""),
    kind := DriveKind.physical, event := DriveEvent.removed }

/-- Modelled from the spec: the body of
`PhysicalMediaCallbacks::onDiskAppearedImpl` is not in the header. The spec:
"read the disk description. If a mount path is present and non-empty, synthesize
display_name … and emit Added. If no mount path is present, extract the UUID and
insert it into the pending-path set; emit nothing." -/
def onDiskAppearedImpl (disk : DADiskRef) (_context : Context) (s : NotifierState) :
    NotifierState :=
  let d := DADiskCopyDescription disk
  match mountPath d with
  | some p => { s with emitted := s.emitted ++ [addedRecord d p] }
  | none => { s with mDisksPendingPath := UUIDSet.insert d.mediaUUID s.mDisksPendingPath }

/-- Modelled from the spec: the body of
`PhysicalMediaCallbacks::onDiskDescriptionChangedImpl` is not in the header.
The spec: "If the disk's UUID is in the pending-path set and the new volume path
is non-empty, remove it from the set and emit Added. If the path went back to
empty, ignore. If the UUID is not in the set, ignore." Only the volume path is
inspected, whatever the changed keys. -/
def onDiskDescriptionChangedImpl (disk : DADiskRef) (_changedKeys : CFArrayRef)
    (_context : Context) (s : NotifierState) : NotifierState :=
  let d := DADiskCopyDescription disk
  if UUIDSet.contains d.mediaUUID s.mDisksPendingPath then
    match mountPath d with
    | some p =>
      { mDisksPendingPath := UUIDSet.erase d.mediaUUID s.mDisksPendingPath
        emitted := s.emitted ++ [addedRecord d p] }
    | none => s
  else s

/-- Modelled from the spec: the body of
`PhysicalMediaCallbacks::onDiskDisappearedImpl` is not in the header. The spec:
"if the UUID is in the pending-path set, remove it silently … Otherwise emit
Removed carrying the last-known mount path." -/
def onDiskDisappearedImpl (disk : DADiskRef) (_context : Context) (s : NotifierState) :
    NotifierState :=
  let d := DADiskCopyDescription disk
  if UUIDSet.contains d.mediaUUID s.mDisksPendingPath then
    { s with mDisksPendingPath := UUIDSet.erase d.mediaUUID s.mDisksPendingPath }
  else { s with emitted := s.emitted ++ [removedRecord d] }

/-- The class `PhysicalMediaCallbacks` as the header declares it: every virtual
member function is overridden; `matchingDict` and `keysToMonitor` return the
members `mMatchingDict` and `mKeysToMonitor`, set by the constructor. -/
def overrides (mMatchingDict : MatchingDict) (mKeysToMonitor : CFArrayRef) :
    Overrides NotifierState :=
  { matchingDict := some mMatchingDict
    keysToMonitor := some mKeysToMonitor
    shouldNotify := some (fun _ d => shouldNotify d)
    onDiskAppearedImpl := some onDiskAppearedImpl
    onDiskDisappearedImpl := some onDiskDisappearedImpl
    onDiskDescriptionChangedImpl := some onDiskDescriptionChangedImpl }

/-- Modelled from the spec: the match filter the constructor of
`PhysicalMediaCallbacks` builds (its body is not in the header): "whole media,
removable OR ejectable, and leaf". -/
def mMatchingDict : MatchingDict :=
  fun m => m.whole && (m.removable || m.ejectable) && m.leaf

/-- Modelled from the spec: the watched keys the constructor of
`PhysicalMediaCallbacks` builds: "the volume-path key only". -/
def mKeysToMonitor : CFArrayRef := some ["DAVolumePath"]

/-- An object of class `PhysicalMediaCallbacks` after virtual dispatch. -/
def object : MediaTypeCallbacks NotifierState :=
  { matchingDict := mMatchingDict
    keysToMonitor := mKeysToMonitor
    shouldNotify := fun _ d => shouldNotify d
    onDiskAppearedImpl := onDiskAppearedImpl
    onDiskDisappearedImpl := onDiskDisappearedImpl
    onDiskDescriptionChangedImpl := onDiskDescriptionChangedImpl }

end PhysicalMediaCallbacks

/-! ## The network strategy `NetworkDriveCallbacks` -/

namespace NetworkDriveCallbacks

/-- The class `NetworkDriveCallbacks` as the header declares it: it overrides
`matchingDict`, `shouldNotify`, `onDiskAppearedImpl` and `onDiskDisappearedImpl`
and neither `keysToMonitor` nor `onDiskDescriptionChangedImpl`. The bodies of
the three overrides defined out of the header, and the member `mMatchingDict`,
are parameters. -/
def overrides {σ : Type} (mMatchingDict : MatchingDict)
    (shouldNotifyBody : σ → DiskDescription → Bool)
    (onDiskAppearedBody onDiskDisappearedBody : DADiskRef → Context → σ → σ) :
    Overrides σ :=
  { matchingDict := some mMatchingDict
    keysToMonitor := none
    shouldNotify := some shouldNotifyBody
    onDiskAppearedImpl := some onDiskAppearedBody
    onDiskDisappearedImpl := some onDiskDisappearedBody
    onDiskDescriptionChangedImpl := none }

end NetworkDriveCallbacks

/-! ## Callback sequences -/

/-- One callback of the host, with the disk (and changed keys) it carries. -/
inductive DiskCallback where
  | appeared (disk : DADiskRef)
  | disappeared (disk : DADiskRef)
  | descriptionChanged (disk : DADiskRef) (changedKeys : CFArrayRef)
  deriving DecidableEq, Repr

namespace DiskCallback

/-- The disk a callback is about. -/
def disk : DiskCallback → DADiskRef
  | appeared d => d
  | disappeared d => d
  | descriptionChanged d _ => d

/-- The identifier of the disk a callback is about. -/
def uuid (c : DiskCallback) : CFUUIDBytes := (DADiskCopyDescription c.disk).mediaUUID

/-- Whether the callback is an `Appeared`. -/
def isAppeared : DiskCallback → Bool
  | appeared _ => true
  | _ => false

/-- Whether the callback is a `Disappeared`. -/
def isDisappeared : DiskCallback → Bool
  | disappeared _ => true
  | _ => false

/-- Whether the physical strategy's filter accepts the disk of the callback. -/
def passes (c : DiskCallback) : Bool :=
  PhysicalMediaCallbacks.shouldNotify (DADiskCopyDescription c.disk)

end DiskCallback

/-- The host delivers one callback: it calls the registered trampoline with the
context given at registration. -/
def deliver {σ : Type} (castSelf : Context → MediaTypeCallbacks σ) (context : Context)
    (c : DiskCallback) (s : σ) : σ :=
  match c with
  | DiskCallback.appeared d => MediaTypeCallbacks.onDiskAppeared castSelf d context s
  | DiskCallback.disappeared d => MediaTypeCallbacks.onDiskDisappeared castSelf d context s
  | DiskCallback.descriptionChanged d keys =>
    MediaTypeCallbacks.onDiskDescriptionChanged castSelf d keys context s

/-- A callback delivered to the physical strategy. -/
def physicalStep (c : DiskCallback) (s : NotifierState) : NotifierState :=
  deliver (fun _ => PhysicalMediaCallbacks.object) 0 c s

/-- An emitted record together with the identifier of the disk whose callback
emitted it. -/
abbrev TracedRecord := CFUUIDBytes × DriveRecord

/-- The records one callback appends to the queue, each with the identifier of
the callback's disk. -/
def tracedStep (c : DiskCallback) (s : NotifierState) : List TracedRecord :=
  ((physicalStep c s).emitted.drop s.emitted.length).map (fun r => (c.uuid, r))

/-- The state and the traced output after a sequence of callbacks delivered to
the physical strategy, from state `s` and with `out` already emitted. -/
def physicalRun (cs : List DiskCallback) (s : NotifierState) (out : List TracedRecord) :
    NotifierState × List TracedRecord :=
  cs.foldl (fun acc c => (physicalStep c acc.1, acc.2 ++ tracedStep c acc.1)) (s, out)

/-- The traced output of a sequence of callbacks delivered to the physical
strategy right after its construction. -/
def physicalTrace (cs : List DiskCallback) : List TracedRecord :=
  (physicalRun cs NotifierState.initial []).2

/-- The output has an `Added` for `id` that no `Removed` for `id` follows. -/
def AnnouncedIn (id : CFUUIDBytes) (out : List TracedRecord) : Prop :=
  ∃ pre r post, out = pre ++ (id, r) :: post ∧ r.event = DriveEvent.added ∧
    ∀ x ∈ post, ¬ (x.1 = id ∧ x.2.event = DriveEvent.removed)

/-- No phantom removals: whenever the output reads `pre ++ x :: post` with `x` a
`Removed`, the part `pre` before it has an `Added` for the same identifier with
no `Removed` for that identifier after it. -/
def NoPhantomRemovals (out : List TracedRecord) : Prop :=
  ∀ pre x post, out = pre ++ x :: post → x.2.event = DriveEvent.removed →
    AnnouncedIn x.1 pre

/-- The callbacks `cs` have an `Appeared` for `id` that passed the filter, with
no `Disappeared` for `id` that passed the filter after it. -/
def AppearedIn (id : CFUUIDBytes) (cs : List DiskCallback) : Prop :=
  ∃ pre a post, cs = pre ++ a :: post ∧
    (a.isAppeared = true ∧ a.passes = true ∧ a.uuid = id) ∧
    ∀ y ∈ post, ¬ (y.isDisappeared = true ∧ y.passes = true ∧ y.uuid = id)

/-- The disk lifecycle of the host: whenever the sequence reads
`pre ++ c :: post` with `c` a `Disappeared` that passes the filter, the part
`pre` before it has an `Appeared` for the same identifier that passed the
filter, with no `Disappeared` for that identifier (passing the filter) after
it. -/
def FollowsAppearance (cs : List DiskCallback) : Prop :=
  ∀ pre c post, cs = pre ++ c :: post → c.isDisappeared = true → c.passes = true →
    AppearedIn c.uuid pre

/-- The possible effects of one callback on the physical strategy: it is
ignored; it announces a disk that appeared with a path; it defers a disk that
appeared without one; it resolves a pending disk that got a path; it drops a
pending disk that disappeared; it reports the removal of a disk that was not
pending. -/
inductive StepEffect (c : DiskCallback) (s : NotifierState) : Prop where
  | ignored (hs : physicalStep c s = s) (ht : tracedStep c s = [])
      (hc : ¬ (c.isAppeared = true ∧ c.passes = true))
      (hd : ¬ (c.isDisappeared = true ∧ c.passes = true))
  | announced (r : DriveRecord) (hr : r.event = DriveEvent.added)
      (hs : (physicalStep c s).mDisksPendingPath = s.mDisksPendingPath)
      (ht : tracedStep c s = [(c.uuid, r)])
      (hd : ¬ (c.isDisappeared = true ∧ c.passes = true))
  | deferred (hs : (physicalStep c s).mDisksPendingPath =
        UUIDSet.insert c.uuid s.mDisksPendingPath)
      (ht : tracedStep c s = [])
      (hd : ¬ (c.isDisappeared = true ∧ c.passes = true))
  | resolved (r : DriveRecord) (hr : r.event = DriveEvent.added)
      (hs : (physicalStep c s).mDisksPendingPath = UUIDSet.erase c.uuid s.mDisksPendingPath)
      (ht : tracedStep c s = [(c.uuid, r)])
      (hc : ¬ (c.isAppeared = true ∧ c.passes = true))
      (hd : ¬ (c.isDisappeared = true ∧ c.passes = true))
  | dropped (hs : (physicalStep c s).mDisksPendingPath =
        UUIDSet.erase c.uuid s.mDisksPendingPath)
      (ht : tracedStep c s = [])
      (hc : ¬ (c.isAppeared = true ∧ c.passes = true))
      (hd : c.isDisappeared = true ∧ c.passes = true)
  | removed (r : DriveRecord)
      (hp : UUIDSet.contains c.uuid s.mDisksPendingPath = false)
      (hs : (physicalStep c s).mDisksPendingPath = s.mDisksPendingPath)
      (ht : tracedStep c s = [(c.uuid, r)])
      (hc : ¬ (c.isAppeared = true ∧ c.passes = true))
      (hd : c.isDisappeared = true ∧ c.passes = true)

/-! ## Sample inputs -/

/-- A description: identifier ending in `b`, the given volume path, volume name
and protocol. -/
def sampleDescription (b : Fin 256) (path name proto : Option String) :
    DiskDescription :=
  { mediaUUID := CFUUIDBytes.ofLast b, volumePath := path, volumeName := name,
    deviceProtocol := proto }

/-- The disk U2 at its appearance: a USB stick with no mount path yet. -/
def diskU2Unmounted : DADiskRef := ⟨sampleDescription 2 none none (some "USB")⟩

/-- The disk U2 once mounted at `/Volumes/Photos` under the name `Photos`. -/
def diskU2Mounted : DADiskRef :=
  ⟨sampleDescription 2 (some "/Volumes/Photos") (some "Photos") (some "USB")⟩

/-- The disk U1: a USB stick mounted at `/Volumes/USB1`. -/
def diskU1 : DADiskRef :=
  ⟨sampleDescription 1 (some "/Volumes/USB1") (some "USB1") (some "USB")⟩

/-- A class derived from `MediaTypeCallbacks` that defines every pure virtual
member function except `shouldNotify(CFDictionaryRef)`. -/
def withoutShouldNotify : Overrides Unit :=
  { matchingDict := some (fun _ => true)
    keysToMonitor := none
    shouldNotify := none
    onDiskAppearedImpl := some (fun _ _ s => s)
    onDiskDisappearedImpl := some (fun _ _ s => s)
    onDiskDescriptionChangedImpl := none }

/-- A class derived from `MediaTypeCallbacks` whose `shouldNotify` rejects the
descriptions without a volume path. -/
def withShouldNotify : Overrides Unit :=
  { matchingDict := some (fun _ => true)
    keysToMonitor := none
    shouldNotify := some (fun _ d => d.volumePath.isSome)
    onDiskAppearedImpl := some (fun _ _ s => s)
    onDiskDisappearedImpl := some (fun _ _ s => s)
    onDiskDescriptionChangedImpl := none }

/-- The object of the class `withShouldNotify`. -/
def withShouldNotifyObject : MediaTypeCallbacks Unit :=
  { matchingDict := fun _ => true
    keysToMonitor := MediaTypeCallbacks.keysToMonitorBase
    shouldNotify := fun _ d => d.volumePath.isSome
    onDiskAppearedImpl := fun _ _ s => s
    onDiskDisappearedImpl := fun _ _ s => s
    onDiskDescriptionChangedImpl := MediaTypeCallbacks.onDiskDescriptionChangedImplBase }

/-- The hot-plug lifecycle of the disk U2: it appears without a mount path, is
mounted, and disappears. -/
def hotPlugU2 : List DiskCallback :=
  [DiskCallback.appeared diskU2Unmounted,
   DiskCallback.descriptionChanged diskU2Mounted (some ["DAVolumePath"]),
   DiskCallback.disappeared diskU2Mounted]

/-! ### Auxiliary facts on `memcmp` -/

theorem memcmp_self (xs : List Nat) (n : Nat) : memcmp xs xs n = 0 := by
  induction xs generalizing n with
  | nil => cases n <;> simp [memcmp]
  | cons x xs ih =>
    cases n with
    | zero => simp [memcmp]
    | succ n => simp [memcmp, ih]

theorem memcmp_neg_trans (xs ys zs : List Nat) (n : Nat)
    (hx : n ≤ xs.length) (hy : n ≤ ys.length) (hz : n ≤ zs.length)
    (h1 : memcmp xs ys n < 0) (h2 : memcmp ys zs n < 0) : memcmp xs zs n < 0 := by
  induction n generalizing xs ys zs with
  | zero => simp [memcmp] at h1
  | succ n ih =>
    match xs, ys, zs, hx, hy, hz with
    | x :: xs, y :: ys, z :: zs, hx, hy, hz =>
      simp only [List.length_cons, Nat.add_le_add_iff_right] at hx hy hz
      simp only [memcmp] at h1 h2 ⊢
      by_cases hxy : x = y
      · subst hxy
        simp only [if_true] at h1
        by_cases hxz : x = z
        · subst hxz
          simp only [if_true] at h2 ⊢
          exact ih xs ys zs hx hy hz h1 h2
        · simp only [hxz, if_false] at h2 ⊢
          exact h2
      · simp only [hxy, if_false] at h1
        by_cases hyz : y = z
        · subst hyz
          simp only [hxy, if_false]
          exact h1
        · simp only [hyz, if_false] at h2
          have hxz : x ≠ z := by omega
          simp only [hxz, if_false]
          omega

theorem memcmp_total (xs ys : List Nat) (n : Nat)
    (hx : xs.length = n) (hy : ys.length = n)
    (h1 : ¬ memcmp xs ys n < 0) (h2 : ¬ memcmp ys xs n < 0) : xs = ys := by
  induction n generalizing xs ys with
  | zero =>
    rw [List.length_eq_zero] at hx hy
    rw [hx, hy]
  | succ n ih =>
    match xs, ys, hx, hy with
    | x :: xs, y :: ys, hx, hy =>
      simp only [List.length_cons, Nat.add_right_cancel_iff] at hx hy
      simp only [memcmp] at h1 h2
      by_cases hxy : x = y
      · subst hxy
        simp only [if_true] at h1 h2
        rw [ih xs ys hx hy h1 h2]
      · have hyx : ¬ y = x := fun h => hxy h.symm
        simp only [hxy, hyx, if_false] at h1 h2
        omega

theorem memcmp_neg_iff (xs ys : List Nat) (n : Nat)
    (hx : n ≤ xs.length) (hy : n ≤ ys.length) :
    memcmp xs ys n < 0 ↔
      ∃ i, i < n ∧ (∀ j, j < i → xs.getD j 0 = ys.getD j 0) ∧
        xs.getD i 0 < ys.getD i 0 := by
  induction n generalizing xs ys with
  | zero => simp [memcmp]
  | succ n ih =>
    match xs, ys, hx, hy with
    | x :: xs, y :: ys, hx, hy =>
      simp only [List.length_cons, Nat.add_le_add_iff_right] at hx hy
      simp only [memcmp]
      by_cases hxy : x = y
      · subst hxy
        simp only [if_true]
        rw [ih xs ys hx hy]
        constructor
        · rintro ⟨i, hi, hpre, hlt⟩
          refine ⟨i + 1, by omega, ?_, by simpa using hlt⟩
          intro j hj
          cases j with
          | zero => simp
          | succ j => simpa using hpre j (by omega)
        · rintro ⟨i, hi, hpre, hlt⟩
          cases i with
          | zero => simp at hlt
          | succ i =>
            refine ⟨i, by omega, ?_, by simpa using hlt⟩
            intro j hj
            simpa using hpre (j + 1) (by omega)
      · simp only [hxy, if_false]
        constructor
        · intro h
          refine ⟨0, by omega, by intro j hj; omega, ?_⟩
          simp only [List.getD_cons_zero]
          omega
        · rintro ⟨i, hi, hpre, hlt⟩
          cases i with
          | zero =>
            simp only [List.getD_cons_zero] at hlt
            omega
          | succ i =>
            have := hpre 0 (by omega)
            simp only [List.getD_cons_zero] at this
            exact absurd this hxy

theorem CFUUIDBytes.toBytes_length (u : CFUUIDBytes) : u.toBytes.length = 16 := rfl

theorem CFUUIDBytes.toBytes_injective (a b : CFUUIDBytes)
    (h : a.toBytes = b.toBytes) : a = b := by
  cases a
  cases b
  simp only [CFUUIDBytes.toBytes, List.cons.injEq, and_true] at h
  simp only [CFUUIDBytes.mk.injEq]
  simp only [Fin.ext_iff]
  exact h

theorem UUIDLess_iff (a b : CFUUIDBytes) :
    detail.UUIDLess a b = true ↔ memcmp a.toBytes b.toBytes 16 < 0 := by
  simp [detail.UUIDLess, sizeofCFUUIDBytes]

theorem UUIDLess_irrefl (a : CFUUIDBytes) : detail.UUIDLess a a = false := by
  simp [detail.UUIDLess, memcmp_self]

theorem UUIDLess_trans (a b c : CFUUIDBytes)
    (h1 : detail.UUIDLess a b = true) (h2 : detail.UUIDLess b c = true) :
    detail.UUIDLess a c = true := by
  rw [UUIDLess_iff] at *
  exact memcmp_neg_trans _ _ _ 16 (by simp [CFUUIDBytes.toBytes_length])
    (by simp [CFUUIDBytes.toBytes_length]) (by simp [CFUUIDBytes.toBytes_length]) h1 h2

theorem UUIDLess_asymm (a b : CFUUIDBytes)
    (h1 : detail.UUIDLess a b = true) : detail.UUIDLess b a = false := by
  cases h : detail.UUIDLess b a
  · rfl
  · have := UUIDLess_trans a b a h1 h
    rw [UUIDLess_irrefl] at this
    exact absurd this (by decide)

theorem UUIDLess_equiv (a b : CFUUIDBytes)
    (h1 : detail.UUIDLess a b = false) (h2 : detail.UUIDLess b a = false) : a = b := by
  apply CFUUIDBytes.toBytes_injective
  apply memcmp_total _ _ 16 (CFUUIDBytes.toBytes_length a) (CFUUIDBytes.toBytes_length b)
  · rw [← UUIDLess_iff, h1]; decide
  · rw [← UUIDLess_iff, h2]; decide


/-! ### Auxiliary facts on the set -/

theorem UUIDSet.equiv_iff (a b : CFUUIDBytes) : UUIDSet.equiv a b = true ↔ a = b := by
  constructor
  · intro h
    simp only [UUIDSet.equiv, Bool.and_eq_true, Bool.not_eq_true', Bool.not_eq_eq_eq_not,
      Bool.not_true] at h
    exact UUIDLess_equiv a b h.1 h.2
  · rintro rfl
    simp [UUIDSet.equiv, UUIDLess_irrefl]

theorem UUIDSet.contains_iff (a : CFUUIDBytes) (s : UUIDSet) :
    UUIDSet.contains a s = true ↔ a ∈ s := by
  simp only [UUIDSet.contains, List.any_eq_true, UUIDSet.equiv_iff]
  constructor
  · rintro ⟨y, hy, rfl⟩
    exact hy
  · intro h
    exact ⟨a, h, rfl⟩

theorem UUIDSet.mem_insert (a x : CFUUIDBytes) (s : UUIDSet) :
    a ∈ UUIDSet.insert x s ↔ a = x ∨ a ∈ s := by
  induction s with
  | nil => simp [UUIDSet.insert]
  | cons y ys ih =>
    simp only [UUIDSet.insert]
    split
    · simp
    · split
      · simp only [List.mem_cons, ih]
        tauto
      · rename_i h1 h2
        have hxy : x = y := UUIDLess_equiv x y (by simpa using h1) (by simpa using h2)
        subst hxy
        simp

theorem UUIDSet.mem_erase (a x : CFUUIDBytes) (s : UUIDSet) :
    a ∈ UUIDSet.erase x s ↔ a ≠ x ∧ a ∈ s := by
  simp only [UUIDSet.erase, List.mem_filter, Bool.not_eq_true', ne_eq]
  constructor
  · rintro ⟨h1, h2⟩
    refine ⟨?_, h1⟩
    rintro rfl
    have := (UUIDSet.equiv_iff a a).2 rfl
    rw [this] at h2
    exact absurd h2 (by decide)
  · rintro ⟨h1, h2⟩
    refine ⟨h2, ?_⟩
    cases h : UUIDSet.equiv x a
    · rfl
    · exact absurd ((UUIDSet.equiv_iff x a).1 h).symm h1

theorem UUIDSet.erase_of_not_mem (x : CFUUIDBytes) (s : UUIDSet) (h : x ∉ s) :
    UUIDSet.erase x s = s := by
  simp only [UUIDSet.erase, List.filter_eq_self, Bool.not_eq_true']
  intro a ha
  cases hq : UUIDSet.equiv x a
  · rfl
  · have := (UUIDSet.equiv_iff x a).1 hq
    subst this
    exact absurd ha h

theorem UUIDSet.erase_insert (x : CFUUIDBytes) (s : UUIDSet) :
    UUIDSet.erase x (UUIDSet.insert x s) = UUIDSet.erase x s := by
  have hxx : UUIDSet.equiv x x = true := (UUIDSet.equiv_iff x x).2 rfl
  induction s with
  | nil => simp [UUIDSet.insert, UUIDSet.erase, hxx]
  | cons y ys ih =>
    simp only [UUIDSet.insert]
    split
    · simp [UUIDSet.erase, hxx]
    · split
      · simp only [UUIDSet.erase, List.filter_cons] at ih ⊢
        rw [ih]
      · rfl

theorem UUIDSet.insert_of_mem (x : CFUUIDBytes) (s : UUIDSet) (hs : s.WF) (h : x ∈ s) :
    UUIDSet.insert x s = s := by
  induction s with
  | nil => simp at h
  | cons y ys ih =>
    have hs2 := List.pairwise_cons.1 hs
    simp only [UUIDSet.insert]
    split
    · rename_i h1
      rcases List.mem_cons.1 h with rfl | hmem
      · rw [UUIDLess_irrefl] at h1
        exact absurd h1 (by decide)
      · have := UUIDLess_asymm _ _ (hs2.1 x hmem)
        rw [this] at h1
        exact absurd h1 (by decide)
    · split
      · rename_i h1 h2
        rcases List.mem_cons.1 h with rfl | hmem
        · rw [UUIDLess_irrefl] at h2
          exact absurd h2 (by decide)
        · rw [ih hs2.2 hmem]
      · rfl

theorem UUIDSet.length_insert_of_not_mem (x : CFUUIDBytes) (s : UUIDSet) (h : x ∉ s) :
    (UUIDSet.insert x s).length = s.length + 1 := by
  induction s with
  | nil => simp [UUIDSet.insert]
  | cons y ys ih =>
    simp only [UUIDSet.insert]
    split
    · simp
    · split
      · simp only [List.length_cons, ih (fun hm => h (List.mem_cons_of_mem _ hm))]
      · rename_i h1 h2
        have hxy : x = y := UUIDLess_equiv x y (by simpa using h1) (by simpa using h2)
        subst hxy
        exact absurd (List.mem_cons_self _ _) h

theorem UUIDSet.insert_WF (x : CFUUIDBytes) (s : UUIDSet) (hs : s.WF) :
    (UUIDSet.insert x s).WF := by
  induction s with
  | nil => simp [UUIDSet.insert, UUIDSet.WF]
  | cons y ys ih =>
    have hs2 := List.pairwise_cons.1 hs
    simp only [UUIDSet.insert]
    split
    · rename_i h1
      refine List.pairwise_cons.2 ⟨?_, hs⟩
      intro a ha
      rcases List.mem_cons.1 ha with rfl | hmem
      · exact h1
      · exact UUIDLess_trans _ _ _ h1 (hs2.1 a hmem)
    · split
      · rename_i h1 h2
        refine List.pairwise_cons.2 ⟨?_, ih hs2.2⟩
        intro a ha
        rcases (UUIDSet.mem_insert a x ys).1 ha with rfl | hmem
        · exact h2
        · exact hs2.1 a hmem
      · exact hs

theorem CFUUIDBytes.eq_iff_bytes (a b : CFUUIDBytes) :
    a = b ↔ ∀ i, i < 16 → a.byte i = b.byte i := by
  constructor
  · rintro rfl i _
    rfl
  · intro h
    apply CFUUIDBytes.toBytes_injective
    apply List.ext_getElem (by simp [CFUUIDBytes.toBytes_length])
    intro i h1 h2
    have hi : i < 16 := by simpa [CFUUIDBytes.toBytes_length] using h1
    have := h i hi
    simp only [CFUUIDBytes.byte, List.getD_eq_getElem?_getD, List.getElem?_eq_getElem h1,
      List.getElem?_eq_getElem h2, Option.getD_some] at this
    exact this

/-! ## The comparator -/

/-- C9: `UUIDLess` is the bytewise lexicographic order on the raw 16 bytes:
`UUIDLess(u1, u2)` holds exactly when there is an index `i` in `0..15` such that
the bytes before `i` agree and byte `i` of `u1` is smaller than byte `i` of `u2`
as an unsigned 8-bit value. -/
theorem UUIDLess_bytewise_lexicographic (u1 u2 : CFUUIDBytes) :
    detail.UUIDLess u1 u2 = true ↔
      ∃ i, i < 16 ∧ (∀ j, j < i → u1.byte j = u2.byte j) ∧ u1.byte i < u2.byte i := by
  rw [UUIDLess_iff]
  exact memcmp_neg_iff u1.toBytes u2.toBytes 16
    (by simp [CFUUIDBytes.toBytes_length]) (by simp [CFUUIDBytes.toBytes_length])

/-- C10: `UUIDLess` is a strict total order on identifiers: it is irreflexive,
transitive, and exactly one of `UUIDLess(a, b)`, `a = b`, `UUIDLess(b, a)`
holds. -/
theorem UUIDLess_strict_total_order (a b c : CFUUIDBytes) :
    detail.UUIDLess a a = false ∧
    (detail.UUIDLess a b = true → detail.UUIDLess b c = true →
      detail.UUIDLess a c = true) ∧
    ((detail.UUIDLess a b = true ∧ a ≠ b ∧ detail.UUIDLess b a = false) ∨
     (detail.UUIDLess a b = false ∧ a = b ∧ detail.UUIDLess b a = false) ∨
     (detail.UUIDLess a b = false ∧ a ≠ b ∧ detail.UUIDLess b a = true)) := by
  refine ⟨UUIDLess_irrefl a, UUIDLess_trans a b c, ?_⟩
  cases hab : detail.UUIDLess a b
  · cases hba : detail.UUIDLess b a
    · exact Or.inr (Or.inl ⟨rfl, UUIDLess_equiv a b hab hba, rfl⟩)
    · refine Or.inr (Or.inr ⟨rfl, ?_, rfl⟩)
      rintro rfl
      rw [UUIDLess_irrefl] at hba
      exact absurd hba (by decide)
  · refine Or.inl ⟨rfl, ?_, UUIDLess_asymm a b hab⟩
    rintro rfl
    rw [UUIDLess_irrefl] at hab
    exact absurd hab (by decide)

/-- Witness for C10 at three identifiers in ascending order. -/
theorem UUIDLess_strict_total_order_witness :
    detail.UUIDLess (CFUUIDBytes.ofLast 1) (CFUUIDBytes.ofLast 2) = true ∧
    detail.UUIDLess (CFUUIDBytes.ofLast 2) (CFUUIDBytes.ofLast 7) = true ∧
    detail.UUIDLess (CFUUIDBytes.ofLast 1) (CFUUIDBytes.ofLast 7) = true :=
  ⟨by decide, by decide,
    (UUIDLess_strict_total_order (CFUUIDBytes.ofLast 1) (CFUUIDBytes.ofLast 2)
      (CFUUIDBytes.ofLast 7)).2.1 (by decide) (by decide)⟩

/-! ## The pending-path set -/

/-- C5: at most one pending entry per identifier. Two identifiers are
equivalent for `UUIDLess` (neither is less than the other) exactly when they
are equal, that is when their 16 bytes are all equal; so in a set kept in order,
inserting an identifier that is present leaves the set unchanged, and inserting
one that differs in some byte from every member adds one entry, which holds
the identifier. -/
theorem pending_set_one_entry_per_identifier (a b : CFUUIDBytes) (s : UUIDSet)
    (hs : s.WF) :
    ((detail.UUIDLess a b = false ∧ detail.UUIDLess b a = false) ↔ a = b) ∧
    (a = b ↔ ∀ i, i < 16 → a.byte i = b.byte i) ∧
    (UUIDSet.contains a s = true ↔ a ∈ s) ∧
    (UUIDSet.contains a s = true → UUIDSet.insert a s = s) ∧
    ((∀ m ∈ s, ∃ i, i < 16 ∧ m.byte i ≠ a.byte i) →
      (UUIDSet.insert a s).size = s.size + 1 ∧
      UUIDSet.contains a (UUIDSet.insert a s) = true ∧
      (∀ m, UUIDSet.contains m s = true → UUIDSet.contains m (UUIDSet.insert a s) = true)) ∧
    (UUIDSet.insert a s).WF := by
  refine ⟨?_, CFUUIDBytes.eq_iff_bytes a b, UUIDSet.contains_iff a s, ?_, ?_,
    UUIDSet.insert_WF a s hs⟩
  · constructor
    · rintro ⟨h1, h2⟩
      exact UUIDLess_equiv a b h1 h2
    · rintro rfl
      exact ⟨UUIDLess_irrefl a, UUIDLess_irrefl a⟩
  · intro h
    exact UUIDSet.insert_of_mem a s hs ((UUIDSet.contains_iff a s).1 h)
  · intro h
    have hmem : a ∉ s := by
      intro ha
      obtain ⟨i, _, hne⟩ := h a ha
      exact hne rfl
    refine ⟨UUIDSet.length_insert_of_not_mem a s hmem, ?_, ?_⟩
    · exact (UUIDSet.contains_iff _ _).2 ((UUIDSet.mem_insert a a s).2 (Or.inl rfl))
    · intro m hm
      exact (UUIDSet.contains_iff _ _).2
        ((UUIDSet.mem_insert m a s).2 (Or.inr ((UUIDSet.contains_iff m s).1 hm)))

/-- Witness for C5: inserting the present identifier `…03` into the set
`{…01, …03}` changes nothing. -/
theorem pending_set_one_entry_per_identifier_witness :
    UUIDSet.WF [CFUUIDBytes.ofLast 1, CFUUIDBytes.ofLast 3] ∧
    UUIDSet.insert (CFUUIDBytes.ofLast 3) [CFUUIDBytes.ofLast 1, CFUUIDBytes.ofLast 3] =
      [CFUUIDBytes.ofLast 1, CFUUIDBytes.ofLast 3] :=
  ⟨by unfold UUIDSet.WF; decide,
    (pending_set_one_entry_per_identifier (CFUUIDBytes.ofLast 3) (CFUUIDBytes.ofLast 1)
      [CFUUIDBytes.ofLast 1, CFUUIDBytes.ofLast 3]
      (by unfold UUIDSet.WF; decide)).2.2.2.1 (by decide)⟩

/-! ## The reference-managed handle -/

/-- C8, as the claim states it, fails for the null pointer: a handle constructed
from a null pointer and destroyed makes no `CFRelease` call at all. -/
theorem UniqueCFRef_null_makes_no_release :
    (UniqueCFRef.lifetime 0 0 []).2 = [] ∧
    ¬ ((UniqueCFRef.lifetime 0 0 []).2 = [] ++ [0]) ∧
    ¬ ((UniqueCFRef.lifetime 0 0 []).2.count 0 = List.count 0 ([] : ReleaseLog) + 1) := by
  decide

/-- C8, amended: a handle constructed from a pointer `p` that is not null and
destroyed makes exactly one `CFRelease` call, on `p`; a handle constructed from
a null pointer makes none; and each conversion to the raw pointer, however many
there are, returns `p` and releases nothing. -/
theorem UniqueCFRef_releases_once (p : CFTypeRef) (uses : Nat) (log : ReleaseLog) :
    (UniqueCFRef.lifetime p uses log).2 = (if p = 0 then log else log ++ [p]) ∧
    (∀ q, (UniqueCFRef.lifetime p uses log).2.count q =
      log.count q + (if p ≠ 0 ∧ q = p then 1 else 0)) ∧
    (UniqueCFRef.lifetime p uses log).1 = List.replicate uses p ∧
    (UniqueCFRef.lifetime p uses log).2 = (UniqueCFRef.lifetime p 0 log).2 ∧
    (UniqueCFRef.ofPointer p).toBool = decide (p ≠ 0) := by
  have h1 : (UniqueCFRef.lifetime p uses log).2 = (if p = 0 then log else log ++ [p]) := by
    simp only [UniqueCFRef.lifetime, UniqueCFRef.destroy, UniqueCFRef.ofPointer,
      detail.UniquePtr.destroy, detail.UniquePtr.get, detail.CoreFoundationDeleter, CFRelease]
  refine ⟨h1, ?_, ?_, rfl, rfl⟩
  · intro q
    rw [h1]
    by_cases hp : p = 0
    · simp [hp]
    · by_cases hq : q = p
      · subst hq
        simp [hp]
      · have hq2 : ¬ p = q := fun h => hq h.symm
        simp [hp, hq, hq2, List.count_cons]
  · clear h1
    simp only [UniqueCFRef.lifetime, UniqueCFRef.toPointer, UniqueCFRef.ofPointer,
      detail.UniquePtr.get]
    induction uses with
    | zero => rfl
    | succ n ih =>
      rw [List.range_succ, List.map_append, ih]
      simp [List.replicate_succ']

/-! ## The abstract strategy -/

theorem MediaTypeCallbacks.recording_shouldNotifyDisk {σ : Type} (cb : MediaTypeCallbacks σ)
    (s : σ) (log : List ImplCall) (disk : DADiskRef) :
    cb.recording.shouldNotifyDisk (s, log) disk = cb.shouldNotifyDisk s disk := rfl

/-- C1: filter fidelity of the trampolines. For every strategy, disk, changed
keys, context and state, each of the three registered handlers invokes the
matching typed handler exactly once, with the same disk (changed keys) and
context, when `shouldNotify` accepts the description of the disk, and does not
invoke it and leaves the state as it is when `shouldNotify` rejects it. The
record next to the state holds the invocations of the typed handlers. -/
theorem trampolines_filter_fidelity {σ : Type} (castSelf : Context → MediaTypeCallbacks σ)
    (disk : DADiskRef) (changedKeys : CFArrayRef) (context : Context) (s : σ)
    (log : List ImplCall) :
    (MediaTypeCallbacks.onDiskAppeared (fun c => (castSelf c).recording) disk context (s, log) =
        if (castSelf context).shouldNotify s (DADiskCopyDescription disk) = true then
          ((castSelf context).onDiskAppearedImpl disk context s,
            log ++ [ImplCall.appeared disk context])
        else (s, log)) ∧
    (MediaTypeCallbacks.onDiskDisappeared (fun c => (castSelf c).recording) disk context (s, log) =
        if (castSelf context).shouldNotify s (DADiskCopyDescription disk) = true then
          ((castSelf context).onDiskDisappearedImpl disk context s,
            log ++ [ImplCall.disappeared disk context])
        else (s, log)) ∧
    (MediaTypeCallbacks.onDiskDescriptionChanged (fun c => (castSelf c).recording) disk
          changedKeys context (s, log) =
        if (castSelf context).shouldNotify s (DADiskCopyDescription disk) = true then
          ((castSelf context).onDiskDescriptionChangedImpl disk changedKeys context s,
            log ++ [ImplCall.descriptionChanged disk changedKeys context])
        else (s, log)) ∧
    (((MediaTypeCallbacks.onDiskAppeared (fun c => (castSelf c).recording) disk context
          (s, log)).2 = log ++ [ImplCall.appeared disk context]) ↔
      (castSelf context).shouldNotify s (DADiskCopyDescription disk) = true) ∧
    (((MediaTypeCallbacks.onDiskDisappeared (fun c => (castSelf c).recording) disk context
          (s, log)).2 = log ++ [ImplCall.disappeared disk context]) ↔
      (castSelf context).shouldNotify s (DADiskCopyDescription disk) = true) ∧
    (((MediaTypeCallbacks.onDiskDescriptionChanged (fun c => (castSelf c).recording) disk
          changedKeys context (s, log)).2 =
        log ++ [ImplCall.descriptionChanged disk changedKeys context]) ↔
      (castSelf context).shouldNotify s (DADiskCopyDescription disk) = true) ∧
    (MediaTypeCallbacks.onDiskAppeared castSelf disk context s =
        if (castSelf context).shouldNotify s (DADiskCopyDescription disk) = true then
          (castSelf context).onDiskAppearedImpl disk context s
        else s) ∧
    (MediaTypeCallbacks.onDiskDisappeared castSelf disk context s =
        if (castSelf context).shouldNotify s (DADiskCopyDescription disk) = true then
          (castSelf context).onDiskDisappearedImpl disk context s
        else s) ∧
    (MediaTypeCallbacks.onDiskDescriptionChanged castSelf disk changedKeys context s =
        if (castSelf context).shouldNotify s (DADiskCopyDescription disk) = true then
          (castSelf context).onDiskDescriptionChangedImpl disk changedKeys context s
        else s) := by
  cases h : (castSelf context).shouldNotify s (DADiskCopyDescription disk) <;>
    simp [MediaTypeCallbacks.onDiskAppeared, MediaTypeCallbacks.onDiskDisappeared,
      MediaTypeCallbacks.onDiskDescriptionChanged, MediaTypeCallbacks.shouldNotifyDisk,
      MediaTypeCallbacks.recording, h]

/-- C6, as the claim states it, fails: a class that defines every pure virtual
member function except `shouldNotify(CFDictionaryRef)` has no object, hence no
object that accepts every description by default. -/
theorem shouldNotify_has_no_default :
    MediaTypeCallbacks.instantiate withoutShouldNotify = none ∧
    ¬ ∃ cb, MediaTypeCallbacks.instantiate withoutShouldNotify = some cb ∧
      ∀ s d, cb.shouldNotify s d = true := by
  refine ⟨rfl, ?_⟩
  rintro ⟨cb, h, _⟩
  exact Option.noConfusion (show (none : Option (MediaTypeCallbacks Unit)) = some cb from h)

/-- C6, amended: `shouldNotify(CFDictionaryRef)` is pure virtual. The abstract
strategy has no default for it, so the `shouldNotify` of every strategy object
is the one its own class defines, and the filter the trampolines apply to a
disk is that function on the description of the disk. -/
theorem shouldNotify_is_pure_virtual {σ : Type} (o : Overrides σ) (cb : MediaTypeCallbacks σ)
    (h : MediaTypeCallbacks.instantiate o = some cb) :
    o.shouldNotify = some cb.shouldNotify ∧
    ∀ s disk, cb.shouldNotifyDisk s disk = cb.shouldNotify s (DADiskCopyDescription disk) := by
  refine ⟨?_, fun _ _ => rfl⟩
  unfold MediaTypeCallbacks.instantiate at h
  split at h
  · rename_i md sn app dis h1 h2 h3 h4
    simp only [Option.some.injEq] at h
    rw [h2, ← h]
  · exact Option.noConfusion h

/-- Witness for C6, amended: a class whose `shouldNotify` rejects the
descriptions without a volume path. -/
theorem shouldNotify_is_pure_virtual_witness :
    MediaTypeCallbacks.instantiate withShouldNotify = some withShouldNotifyObject ∧
    withShouldNotify.shouldNotify = some withShouldNotifyObject.shouldNotify ∧
    withShouldNotifyObject.shouldNotify () diskU2Unmounted.description = false :=
  ⟨rfl, (shouldNotify_is_pure_virtual withShouldNotify withShouldNotifyObject rfl).1, rfl⟩

/-- C7: the default description-changed handler is empty and the network
strategy inherits it. Whatever the bodies of the members the network strategy
overrides, its class has an object, and a `DescriptionChanged` callback
delivered to that object returns the state it was given, for every disk, every
list of changed keys, every context and every state, whether `shouldNotify`
accepts the disk or not. -/
theorem network_description_changed_is_noop {σ : Type} (mMatchingDict : MatchingDict)
    (shouldNotifyBody : σ → DiskDescription → Bool)
    (onDiskAppearedBody onDiskDisappearedBody : DADiskRef → Context → σ → σ) :
    ∃ cb, MediaTypeCallbacks.instantiate (NetworkDriveCallbacks.overrides mMatchingDict
        shouldNotifyBody onDiskAppearedBody onDiskDisappearedBody) = some cb ∧
      cb.onDiskDescriptionChangedImpl = MediaTypeCallbacks.onDiskDescriptionChangedImplBase ∧
      cb.keysToMonitor = none ∧
      ∀ (disk : DADiskRef) (changedKeys : CFArrayRef) (context : Context) (s : σ),
        MediaTypeCallbacks.onDiskDescriptionChanged (fun _ => cb) disk changedKeys context s = s ∧
        deliver (fun _ => cb) context (DiskCallback.descriptionChanged disk changedKeys) s = s ∧
        cb.onDiskDescriptionChangedImpl disk changedKeys context s = s := by
  refine ⟨{ matchingDict := mMatchingDict
            keysToMonitor := none
            shouldNotify := shouldNotifyBody
            onDiskAppearedImpl := onDiskAppearedBody
            onDiskDisappearedImpl := onDiskDisappearedBody
            onDiskDescriptionChangedImpl :=
              MediaTypeCallbacks.onDiskDescriptionChangedImplBase }, rfl, rfl, rfl, ?_⟩
  intro disk changedKeys context s
  refine ⟨?_, ?_, rfl⟩ <;>
    simp [deliver, MediaTypeCallbacks.onDiskDescriptionChanged,
      MediaTypeCallbacks.onDiskDescriptionChangedImplBase]

/-! ## The physical strategy -/

theorem PhysicalMediaCallbacks.instantiate_overrides :
    MediaTypeCallbacks.instantiate (PhysicalMediaCallbacks.overrides
      PhysicalMediaCallbacks.mMatchingDict PhysicalMediaCallbacks.mKeysToMonitor) =
      some PhysicalMediaCallbacks.object := rfl

theorem physicalStep_rejected (c : DiskCallback) (s : NotifierState)
    (h : c.passes = false) : physicalStep c s = s := by
  cases c <;>
    simp_all [physicalStep, deliver, MediaTypeCallbacks.onDiskAppeared,
      MediaTypeCallbacks.onDiskDisappeared, MediaTypeCallbacks.onDiskDescriptionChanged,
      MediaTypeCallbacks.shouldNotifyDisk, PhysicalMediaCallbacks.object, DiskCallback.passes,
      DiskCallback.disk]

theorem physicalStep_appeared (d : DADiskRef) (s : NotifierState)
    (h : PhysicalMediaCallbacks.shouldNotify d.description = true) :
    physicalStep (DiskCallback.appeared d) s =
      PhysicalMediaCallbacks.onDiskAppearedImpl d 0 s := by
  simp [physicalStep, deliver, MediaTypeCallbacks.onDiskAppeared,
    MediaTypeCallbacks.shouldNotifyDisk, PhysicalMediaCallbacks.object, DADiskCopyDescription, h]

theorem physicalStep_disappeared (d : DADiskRef) (s : NotifierState)
    (h : PhysicalMediaCallbacks.shouldNotify d.description = true) :
    physicalStep (DiskCallback.disappeared d) s =
      PhysicalMediaCallbacks.onDiskDisappearedImpl d 0 s := by
  simp [physicalStep, deliver, MediaTypeCallbacks.onDiskDisappeared,
    MediaTypeCallbacks.shouldNotifyDisk, PhysicalMediaCallbacks.object, DADiskCopyDescription, h]

theorem physicalStep_descriptionChanged (d : DADiskRef) (keys : CFArrayRef) (s : NotifierState)
    (h : PhysicalMediaCallbacks.shouldNotify d.description = true) :
    physicalStep (DiskCallback.descriptionChanged d keys) s =
      PhysicalMediaCallbacks.onDiskDescriptionChangedImpl d keys 0 s := by
  simp [physicalStep, deliver, MediaTypeCallbacks.onDiskDescriptionChanged,
    MediaTypeCallbacks.shouldNotifyDisk, PhysicalMediaCallbacks.object, DADiskCopyDescription, h]

theorem PhysicalMediaCallbacks.mountPath_none (d : DiskDescription)
    (h : d.volumePath = none) : PhysicalMediaCallbacks.mountPath d = none := by
  simp [PhysicalMediaCallbacks.mountPath, h]

theorem PhysicalMediaCallbacks.mountPath_some (d : DiskDescription) (p : String)
    (h : d.volumePath = some p) (hp : p ≠ "") :
    PhysicalMediaCallbacks.mountPath d = some p := by
  simp [PhysicalMediaCallbacks.mountPath, h, hp]

/-- C3, as the claim states it, fails when the identifier is already pending:
after a first `Appeared` without a mount path the set holds the identifier, and
a second such `Appeared` followed by `Disappeared` leaves the set empty, not
equal to the set before these two callbacks. -/
theorem pending_set_not_restored_when_already_pending :
    PhysicalMediaCallbacks.shouldNotify diskU2Unmounted.description = true ∧
    diskU2Unmounted.description.volumePath = none ∧
    (physicalStep (DiskCallback.appeared diskU2Unmounted)
      NotifierState.initial).mDisksPendingPath = [CFUUIDBytes.ofLast 2] ∧
    (physicalStep (DiskCallback.disappeared diskU2Unmounted)
      (physicalStep (DiskCallback.appeared diskU2Unmounted)
        (physicalStep (DiskCallback.appeared diskU2Unmounted)
          NotifierState.initial))).mDisksPendingPath = [] ∧
    (physicalStep (DiskCallback.disappeared diskU2Unmounted)
      (physicalStep (DiskCallback.appeared diskU2Unmounted)
        (physicalStep (DiskCallback.appeared diskU2Unmounted)
          NotifierState.initial))).mDisksPendingPath ≠
      (physicalStep (DiskCallback.appeared diskU2Unmounted)
        NotifierState.initial).mDisksPendingPath := by
  decide

/-- C3, amended: pending silence. For a disk that passes `shouldNotify`, an
`Appeared` whose description has no mount path followed by a `Disappeared` for
the same identifier emits nothing, and the pending-path set afterwards is the
set before without that identifier; it equals the set before when the
identifier was not pending before. -/
theorem pending_silence (s : NotifierState) (d1 d2 : DADiskRef)
    (h1 : PhysicalMediaCallbacks.shouldNotify d1.description = true)
    (h2 : PhysicalMediaCallbacks.shouldNotify d2.description = true)
    (hid : d2.description.mediaUUID = d1.description.mediaUUID)
    (hpath : d1.description.volumePath = none) :
    (physicalStep (DiskCallback.appeared d1) s).emitted = s.emitted ∧
    UUIDSet.contains d1.description.mediaUUID
      (physicalStep (DiskCallback.appeared d1) s).mDisksPendingPath = true ∧
    (physicalStep (DiskCallback.disappeared d2)
      (physicalStep (DiskCallback.appeared d1) s)).emitted = s.emitted ∧
    (physicalStep (DiskCallback.disappeared d2)
      (physicalStep (DiskCallback.appeared d1) s)).mDisksPendingPath =
        UUIDSet.erase d1.description.mediaUUID s.mDisksPendingPath ∧
    (UUIDSet.contains d1.description.mediaUUID s.mDisksPendingPath = false →
      (physicalStep (DiskCallback.disappeared d2)
        (physicalStep (DiskCallback.appeared d1) s)).mDisksPendingPath =
          s.mDisksPendingPath) := by
  have hc : UUIDSet.contains d1.description.mediaUUID
      (UUIDSet.insert d1.description.mediaUUID s.mDisksPendingPath) = true :=
    (UUIDSet.contains_iff _ _).2 ((UUIDSet.mem_insert _ _ _).2 (Or.inl rfl))
  have hA : physicalStep (DiskCallback.appeared d1) s =
      { s with mDisksPendingPath :=
          UUIDSet.insert d1.description.mediaUUID s.mDisksPendingPath } := by
    rw [physicalStep_appeared d1 s h1]
    simp [PhysicalMediaCallbacks.onDiskAppearedImpl, DADiskCopyDescription,
      PhysicalMediaCallbacks.mountPath_none _ hpath]
  have hD : physicalStep (DiskCallback.disappeared d2)
      (physicalStep (DiskCallback.appeared d1) s) =
      { s with mDisksPendingPath :=
          UUIDSet.erase d1.description.mediaUUID s.mDisksPendingPath } := by
    rw [hA, physicalStep_disappeared d2 _ h2]
    simp [PhysicalMediaCallbacks.onDiskDisappearedImpl, DADiskCopyDescription, hid, hc,
      UUIDSet.erase_insert]
  rw [hD, hA]
  refine ⟨rfl, hc, rfl, rfl, ?_⟩
  intro hn
  apply UUIDSet.erase_of_not_mem
  intro hm
  rw [(UUIDSet.contains_iff _ _).2 hm] at hn
  exact absurd hn (by decide)

/-- Witness for C3, amended: the disk U2 appears without a mount path and
disappears, from the initial state. -/
theorem pending_silence_witness :
    (physicalStep (DiskCallback.disappeared diskU2Unmounted)
      (physicalStep (DiskCallback.appeared diskU2Unmounted) NotifierState.initial)).emitted = [] ∧
    (physicalStep (DiskCallback.disappeared diskU2Unmounted)
      (physicalStep (DiskCallback.appeared diskU2Unmounted)
        NotifierState.initial)).mDisksPendingPath = [] :=
  ⟨(pending_silence NotifierState.initial diskU2Unmounted diskU2Unmounted
      (by decide) (by decide) rfl rfl).2.2.1,
    (pending_silence NotifierState.initial diskU2Unmounted diskU2Unmounted
      (by decide) (by decide) rfl rfl).2.2.2.2 (by decide)⟩

theorem UUIDSet.erase_eq_filter (x : CFUUIDBytes) (s : UUIDSet) :
    UUIDSet.erase x s = s.filter (fun m => decide (m ≠ x)) := by
  unfold UUIDSet.erase
  apply List.filter_congr
  intro m _
  cases h : UUIDSet.equiv x m
  · have hne : m ≠ x := by
      rintro rfl
      rw [(UUIDSet.equiv_iff m m).2 rfl] at h
      exact absurd h (by decide)
    simp [hne]
  · have := (UUIDSet.equiv_iff x m).1 h
    subst this
    simp

/-- C4: two-phase hot-plug. For a physical disk that passes `shouldNotify`, an
`Appeared` without a mount path (absent or empty) emits nothing and puts the
identifier in the pending-path set: the set afterwards holds the identifier
and exactly the identifiers it held before, one entry more when the identifier
is new, and stays in order. A following `DescriptionChanged` for that
identifier carrying the non-empty volume path `p` emits exactly one record, an
`Added` with path `p` and the synthesized display name (the volume name when
the description has one), and removes the identifier from the set: the set
afterwards is the set before the two callbacks with that identifier filtered
out and every other identifier kept. A further `DescriptionChanged` for that
identifier changes nothing and emits nothing. -/
theorem two_phase_hot_plug (s : NotifierState) (d1 d2 d3 : DADiskRef) (p : String)
    (keys2 keys3 : CFArrayRef)
    (h1 : PhysicalMediaCallbacks.shouldNotify d1.description = true)
    (h2 : PhysicalMediaCallbacks.shouldNotify d2.description = true)
    (h3 : PhysicalMediaCallbacks.shouldNotify d3.description = true)
    (hid2 : d2.description.mediaUUID = d1.description.mediaUUID)
    (hid3 : d3.description.mediaUUID = d1.description.mediaUUID)
    (hpath1 : PhysicalMediaCallbacks.mountPath d1.description = none)
    (hpath2 : d2.description.volumePath = some p) (hp : p ≠ "") :
    (physicalStep (DiskCallback.appeared d1) s).emitted = s.emitted ∧
    UUIDSet.contains d1.description.mediaUUID
      (physicalStep (DiskCallback.appeared d1) s).mDisksPendingPath = true ∧
    (physicalStep (DiskCallback.descriptionChanged d2 keys2)
      (physicalStep (DiskCallback.appeared d1) s)).emitted =
        s.emitted ++ [{ mountPath := p
                        displayName := PhysicalMediaCallbacks.displayName d2.description p
                        kind := DriveKind.physical
                        event := DriveEvent.added }] ∧
    (∀ n, d2.description.volumeName = some n →
      PhysicalMediaCallbacks.displayName d2.description p = n) ∧
    UUIDSet.contains d1.description.mediaUUID
      (physicalStep (DiskCallback.descriptionChanged d2 keys2)
        (physicalStep (DiskCallback.appeared d1) s)).mDisksPendingPath = false ∧
    physicalStep (DiskCallback.descriptionChanged d3 keys3)
      (physicalStep (DiskCallback.descriptionChanged d2 keys2)
        (physicalStep (DiskCallback.appeared d1) s)) =
      physicalStep (DiskCallback.descriptionChanged d2 keys2)
        (physicalStep (DiskCallback.appeared d1) s) ∧
    (∀ m, m ∈ (physicalStep (DiskCallback.appeared d1) s).mDisksPendingPath ↔
      m = d1.description.mediaUUID ∨ m ∈ s.mDisksPendingPath) ∧
    (d1.description.mediaUUID ∉ s.mDisksPendingPath →
      (physicalStep (DiskCallback.appeared d1) s).mDisksPendingPath.length =
        s.mDisksPendingPath.length + 1) ∧
    (UUIDSet.WF s.mDisksPendingPath →
      UUIDSet.WF (physicalStep (DiskCallback.appeared d1) s).mDisksPendingPath ∧
      (d1.description.mediaUUID ∈ s.mDisksPendingPath →
        (physicalStep (DiskCallback.appeared d1) s).mDisksPendingPath =
          s.mDisksPendingPath)) ∧
    (physicalStep (DiskCallback.descriptionChanged d2 keys2)
      (physicalStep (DiskCallback.appeared d1) s)).mDisksPendingPath =
        s.mDisksPendingPath.filter (fun m => decide (m ≠ d1.description.mediaUUID)) ∧
    (∀ m, m ∈ (physicalStep (DiskCallback.descriptionChanged d2 keys2)
        (physicalStep (DiskCallback.appeared d1) s)).mDisksPendingPath ↔
      m ≠ d1.description.mediaUUID ∧ m ∈ s.mDisksPendingPath) ∧
    (d1.description.mediaUUID ∉ s.mDisksPendingPath →
      (physicalStep (DiskCallback.descriptionChanged d2 keys2)
        (physicalStep (DiskCallback.appeared d1) s)).mDisksPendingPath =
          s.mDisksPendingPath) := by
  have hc : UUIDSet.contains d1.description.mediaUUID
      (UUIDSet.insert d1.description.mediaUUID s.mDisksPendingPath) = true :=
    (UUIDSet.contains_iff _ _).2 ((UUIDSet.mem_insert _ _ _).2 (Or.inl rfl))
  have hn : UUIDSet.contains d1.description.mediaUUID
      (UUIDSet.erase d1.description.mediaUUID s.mDisksPendingPath) = false := by
    cases h : UUIDSet.contains d1.description.mediaUUID
      (UUIDSet.erase d1.description.mediaUUID s.mDisksPendingPath)
    · rfl
    · exact absurd rfl ((UUIDSet.mem_erase _ _ _).1 ((UUIDSet.contains_iff _ _).1 h)).1
  have hA : physicalStep (DiskCallback.appeared d1) s =
      { s with mDisksPendingPath :=
          UUIDSet.insert d1.description.mediaUUID s.mDisksPendingPath } := by
    rw [physicalStep_appeared d1 s h1]
    simp [PhysicalMediaCallbacks.onDiskAppearedImpl, DADiskCopyDescription, hpath1]
  have hC : physicalStep (DiskCallback.descriptionChanged d2 keys2)
      (physicalStep (DiskCallback.appeared d1) s) =
      { mDisksPendingPath := UUIDSet.erase d1.description.mediaUUID s.mDisksPendingPath
        emitted := s.emitted ++ [PhysicalMediaCallbacks.addedRecord d2.description p] } := by
    rw [hA, physicalStep_descriptionChanged d2 keys2 _ h2]
    simp [PhysicalMediaCallbacks.onDiskDescriptionChangedImpl, DADiskCopyDescription, hid2, hc,
      PhysicalMediaCallbacks.mountPath_some _ p hpath2 hp, UUIDSet.erase_insert]
  rw [hC, hA]
  refine ⟨rfl, hc, rfl, ?_, hn, ?_, ?_, ?_, ?_, ?_, ?_, ?_⟩
  · intro n hname
    simp [PhysicalMediaCallbacks.displayName, hname]
  · rw [physicalStep_descriptionChanged d3 keys3 _ h3]
    simp [PhysicalMediaCallbacks.onDiskDescriptionChangedImpl, DADiskCopyDescription, hid3, hn]
  · intro m
    exact UUIDSet.mem_insert m _ _
  · intro hnew
    exact UUIDSet.length_insert_of_not_mem _ _ hnew
  · intro hwf
    exact ⟨UUIDSet.insert_WF _ _ hwf, fun hmem => UUIDSet.insert_of_mem _ _ hwf hmem⟩
  · exact UUIDSet.erase_eq_filter _ _
  · intro m
    exact UUIDSet.mem_erase m _ _
  · intro hnew
    exact UUIDSet.erase_of_not_mem _ _ hnew

/-- Witness for C4: the disk U2 appears without a mount path and is then
mounted at `/Volumes/Photos` under the name `Photos`, first from the initial
state, then while the identifiers `…01` and `…09` of two other disks are
pending: one `Added` is emitted and the other two identifiers stay pending. -/
theorem two_phase_hot_plug_witness :
    (physicalStep (DiskCallback.descriptionChanged diskU2Mounted (some ["DAVolumePath"]))
      (physicalStep (DiskCallback.appeared diskU2Unmounted) NotifierState.initial)).emitted =
      [{ mountPath := "/Volumes/Photos", displayName := "Photos",
         kind := DriveKind.physical, event := DriveEvent.added }] ∧
    (physicalStep (DiskCallback.appeared diskU2Unmounted)
      ⟨[CFUUIDBytes.ofLast 1, CFUUIDBytes.ofLast 9], []⟩).mDisksPendingPath =
      [CFUUIDBytes.ofLast 1, CFUUIDBytes.ofLast 2, CFUUIDBytes.ofLast 9] ∧
    (physicalStep (DiskCallback.descriptionChanged diskU2Mounted (some ["DAVolumePath"]))
      (physicalStep (DiskCallback.appeared diskU2Unmounted)
        ⟨[CFUUIDBytes.ofLast 1, CFUUIDBytes.ofLast 9], []⟩)).mDisksPendingPath =
      [CFUUIDBytes.ofLast 1, CFUUIDBytes.ofLast 9] :=
  ⟨(two_phase_hot_plug NotifierState.initial diskU2Unmounted diskU2Mounted diskU2Mounted
      "/Volumes/Photos" (some ["DAVolumePath"]) (some ["DAVolumePath"])
      (by decide) (by decide) (by decide) rfl rfl rfl rfl (by decide)).2.2.1,
    by decide,
    (two_phase_hot_plug ⟨[CFUUIDBytes.ofLast 1, CFUUIDBytes.ofLast 9], []⟩
      diskU2Unmounted diskU2Mounted diskU2Mounted
      "/Volumes/Photos" (some ["DAVolumePath"]) (some ["DAVolumePath"])
      (by decide) (by decide) (by decide) rfl rfl rfl rfl
      (by decide)).2.2.2.2.2.2.2.2.2.2.2 (by decide)⟩

/-! ## Traces of the physical strategy -/

theorem snoc_eq_append_cons {α : Type} (l pre post : List α) (x y : α)
    (h : l ++ [x] = pre ++ y :: post) :
    (post = [] ∧ pre = l ∧ y = x) ∨ ∃ post2, post = post2 ++ [x] ∧ l = pre ++ y :: post2 := by
  rcases List.eq_nil_or_concat post with rfl | ⟨L, b, hL⟩
  on_goal 2 => rw [List.concat_eq_append] at hL; subst hL
  · left
    have := List.append_inj' h rfl
    simp only [List.cons.injEq, and_true] at this
    exact ⟨rfl, this.1.symm, this.2.symm⟩
  · right
    have h2 : l ++ [x] = (pre ++ y :: L) ++ [b] := by
      rw [h]
      simp
    have := List.append_inj' h2 rfl
    simp only [List.cons.injEq, and_true] at this
    refine ⟨L, ?_, this.1⟩
    rw [this.2]

theorem noPhantomRemovals_nil : NoPhantomRemovals [] := by
  intro pre x post h
  simp at h

theorem noPhantomRemovals_snoc (out : List TracedRecord) (x : TracedRecord)
    (h : NoPhantomRemovals out)
    (hx : x.2.event = DriveEvent.removed → AnnouncedIn x.1 out) :
    NoPhantomRemovals (out ++ [x]) := by
  intro pre y post heq hy
  rcases snoc_eq_append_cons out pre post x y heq with ⟨_, rfl, rfl⟩ | ⟨post2, _, hout⟩
  · exact hx hy
  · exact h pre y post2 hout hy

theorem announcedIn_snoc_added (id : CFUUIDBytes) (out : List TracedRecord) (r : DriveRecord)
    (hr : r.event = DriveEvent.added) : AnnouncedIn id (out ++ [(id, r)]) :=
  ⟨out, r, [], rfl, hr, by simp⟩

theorem announcedIn_snoc_keep (id : CFUUIDBytes) (out : List TracedRecord) (x : TracedRecord)
    (h : AnnouncedIn id out) (hx : ¬ (x.1 = id ∧ x.2.event = DriveEvent.removed)) :
    AnnouncedIn id (out ++ [x]) := by
  obtain ⟨pre, r, post, rfl, hr, hpost⟩ := h
  refine ⟨pre, r, post ++ [x], by simp, hr, ?_⟩
  intro y hy
  rcases List.mem_append.1 hy with hy | hy
  · exact hpost y hy
  · rw [List.mem_singleton] at hy
    subst hy
    exact hx

theorem appearedIn_of_snoc (id : CFUUIDBytes) (cs : List DiskCallback) (c : DiskCallback)
    (h : AppearedIn id (cs ++ [c])) :
    (c.isAppeared = true ∧ c.passes = true ∧ c.uuid = id) ∨
    (AppearedIn id cs ∧ ¬ (c.isDisappeared = true ∧ c.passes = true ∧ c.uuid = id)) := by
  obtain ⟨pre, a, post, heq, ha, hpost⟩ := h
  rcases snoc_eq_append_cons cs pre post c a heq with ⟨_, _, rfl⟩ | ⟨post2, rfl, hcs⟩
  · exact Or.inl ha
  · right
    refine ⟨⟨pre, a, post2, hcs, ha, ?_⟩, ?_⟩
    · intro y hy
      exact hpost y (List.mem_append_left _ hy)
    · exact hpost c (List.mem_append_right _ (List.mem_singleton.2 rfl))

theorem appearedIn_snoc_appeared (cs : List DiskCallback) (c : DiskCallback)
    (h1 : c.isAppeared = true) (h2 : c.passes = true) : AppearedIn c.uuid (cs ++ [c]) :=
  ⟨cs, c, [], rfl, ⟨h1, h2, rfl⟩, by simp⟩

theorem appearedIn_snoc_keep (id : CFUUIDBytes) (cs : List DiskCallback) (c : DiskCallback)
    (h : AppearedIn id cs)
    (hc : ¬ (c.isDisappeared = true ∧ c.passes = true ∧ c.uuid = id)) :
    AppearedIn id (cs ++ [c]) := by
  obtain ⟨pre, a, post, rfl, ha, hpost⟩ := h
  refine ⟨pre, a, post ++ [c], by simp, ha, ?_⟩
  intro y hy
  rcases List.mem_append.1 hy with hy | hy
  · exact hpost y hy
  · rw [List.mem_singleton] at hy
    subst hy
    exact hc

theorem followsAppearance_nil : FollowsAppearance [] := by
  intro pre c post h
  simp at h

theorem followsAppearance_snoc (cs : List DiskCallback) (c : DiskCallback)
    (h : FollowsAppearance cs)
    (hc : c.isDisappeared = true → c.passes = true → AppearedIn c.uuid cs) :
    FollowsAppearance (cs ++ [c]) := by
  intro pre y post heq hy1 hy2
  rcases snoc_eq_append_cons cs pre post c y heq with ⟨_, rfl, rfl⟩ | ⟨post2, _, hcs⟩
  · exact hc hy1 hy2
  · exact h pre y post2 hcs hy1 hy2

theorem followsAppearance_of_snoc (cs : List DiskCallback) (c : DiskCallback)
    (h : FollowsAppearance (cs ++ [c])) :
    FollowsAppearance cs ∧
      (c.isDisappeared = true → c.passes = true → AppearedIn c.uuid cs) := by
  constructor
  · intro pre y post heq hy1 hy2
    exact h pre y (post ++ [c]) (by rw [heq]; simp) hy1 hy2
  · intro h1 h2
    exact h cs c [] rfl h1 h2

theorem physicalRun_snoc (cs : List DiskCallback) (c : DiskCallback) (s : NotifierState)
    (out : List TracedRecord) :
    physicalRun (cs ++ [c]) s out =
      (physicalStep c (physicalRun cs s out).1,
        (physicalRun cs s out).2 ++ tracedStep c (physicalRun cs s out).1) := by
  simp [physicalRun, List.foldl_append]

theorem tracedStep_of_emitted (c : DiskCallback) (s : NotifierState) (new : List DriveRecord)
    (h : (physicalStep c s).emitted = s.emitted ++ new) :
    tracedStep c s = new.map (fun r => (c.uuid, r)) := by
  simp [tracedStep, h]

theorem stepEffect (c : DiskCallback) (s : NotifierState) : StepEffect c s := by
  cases hp : c.passes
  · have hs := physicalStep_rejected c s hp
    exact StepEffect.ignored hs (by simp [tracedStep, hs]) (by simp [hp]) (by simp [hp])
  · cases c with
    | appeared d =>
      have hp2 : PhysicalMediaCallbacks.shouldNotify d.description = true := hp
      have hs := physicalStep_appeared d s hp2
      cases hm : PhysicalMediaCallbacks.mountPath d.description with
      | none =>
        have hs2 : physicalStep (DiskCallback.appeared d) s =
            { s with mDisksPendingPath :=
                UUIDSet.insert d.description.mediaUUID s.mDisksPendingPath } := by
          rw [hs]
          simp [PhysicalMediaCallbacks.onDiskAppearedImpl, DADiskCopyDescription, hm]
        exact StepEffect.deferred (by rw [hs2]; rfl)
          (tracedStep_of_emitted _ _ [] (by rw [hs2]; simp)) (by simp [DiskCallback.isDisappeared])
      | some p =>
        have hs2 : physicalStep (DiskCallback.appeared d) s =
            { s with emitted :=
                s.emitted ++ [PhysicalMediaCallbacks.addedRecord d.description p] } := by
          rw [hs]
          simp [PhysicalMediaCallbacks.onDiskAppearedImpl, DADiskCopyDescription, hm]
        exact StepEffect.announced (PhysicalMediaCallbacks.addedRecord d.description p) rfl
          (by rw [hs2]) (tracedStep_of_emitted _ _ [_] (by rw [hs2]))
          (by simp [DiskCallback.isDisappeared])
    | disappeared d =>
      have hp2 : PhysicalMediaCallbacks.shouldNotify d.description = true := hp
      have hs := physicalStep_disappeared d s hp2
      cases hc : UUIDSet.contains d.description.mediaUUID s.mDisksPendingPath with
      | true =>
        have hs2 : physicalStep (DiskCallback.disappeared d) s =
            { s with mDisksPendingPath :=
                UUIDSet.erase d.description.mediaUUID s.mDisksPendingPath } := by
          rw [hs]
          simp [PhysicalMediaCallbacks.onDiskDisappearedImpl, DADiskCopyDescription, hc]
        exact StepEffect.dropped (by rw [hs2]; rfl)
          (tracedStep_of_emitted _ _ [] (by rw [hs2]; simp)) (by simp [DiskCallback.isAppeared])
          ⟨rfl, hp⟩
      | false =>
        have hs2 : physicalStep (DiskCallback.disappeared d) s =
            { s with emitted :=
                s.emitted ++ [PhysicalMediaCallbacks.removedRecord d.description] } := by
          rw [hs]
          simp [PhysicalMediaCallbacks.onDiskDisappearedImpl, DADiskCopyDescription, hc]
        exact StepEffect.removed (PhysicalMediaCallbacks.removedRecord d.description) hc
          (by rw [hs2]) (tracedStep_of_emitted _ _ [_] (by rw [hs2]))
          (by simp [DiskCallback.isAppeared]) ⟨rfl, hp⟩
    | descriptionChanged d keys =>
      have hp2 : PhysicalMediaCallbacks.shouldNotify d.description = true := hp
      have hs := physicalStep_descriptionChanged d keys s hp2
      cases hc : UUIDSet.contains d.description.mediaUUID s.mDisksPendingPath with
      | false =>
        have hs2 : physicalStep (DiskCallback.descriptionChanged d keys) s = s := by
          rw [hs]
          simp [PhysicalMediaCallbacks.onDiskDescriptionChangedImpl, DADiskCopyDescription, hc]
        exact StepEffect.ignored hs2 (by simp [tracedStep, hs2])
          (by simp [DiskCallback.isAppeared]) (by simp [DiskCallback.isDisappeared])
      | true =>
        cases hm : PhysicalMediaCallbacks.mountPath d.description with
        | none =>
          have hs2 : physicalStep (DiskCallback.descriptionChanged d keys) s = s := by
            rw [hs]
            simp [PhysicalMediaCallbacks.onDiskDescriptionChangedImpl, DADiskCopyDescription,
              hc, hm]
          exact StepEffect.ignored hs2 (by simp [tracedStep, hs2])
            (by simp [DiskCallback.isAppeared]) (by simp [DiskCallback.isDisappeared])
        | some p =>
          have hs2 : physicalStep (DiskCallback.descriptionChanged d keys) s =
              { mDisksPendingPath := UUIDSet.erase d.description.mediaUUID s.mDisksPendingPath
                emitted :=
                  s.emitted ++ [PhysicalMediaCallbacks.addedRecord d.description p] } := by
            rw [hs]
            simp [PhysicalMediaCallbacks.onDiskDescriptionChangedImpl, DADiskCopyDescription,
              hc, hm]
          exact StepEffect.resolved (PhysicalMediaCallbacks.addedRecord d.description p) rfl
            (by rw [hs2]; rfl) (tracedStep_of_emitted _ _ [_] (by rw [hs2]))
            (by simp [DiskCallback.isAppeared]) (by simp [DiskCallback.isDisappeared])

theorem UUIDSet.contains_insert_of_contains (id x : CFUUIDBytes) (s : UUIDSet)
    (h : UUIDSet.contains id s = true) : UUIDSet.contains id (UUIDSet.insert x s) = true :=
  (UUIDSet.contains_iff _ _).2
    ((UUIDSet.mem_insert id x s).2 (Or.inr ((UUIDSet.contains_iff id s).1 h)))

theorem UUIDSet.contains_insert_self (x : CFUUIDBytes) (s : UUIDSet) :
    UUIDSet.contains x (UUIDSet.insert x s) = true :=
  (UUIDSet.contains_iff _ _).2 ((UUIDSet.mem_insert x x s).2 (Or.inl rfl))

theorem UUIDSet.contains_erase_of_ne (id x : CFUUIDBytes) (s : UUIDSet) (hne : id ≠ x)
    (h : UUIDSet.contains id s = true) : UUIDSet.contains id (UUIDSet.erase x s) = true :=
  (UUIDSet.contains_iff _ _).2
    ((UUIDSet.mem_erase id x s).2 ⟨hne, (UUIDSet.contains_iff id s).1 h⟩)

/-- The invariant behind the absence of phantom removals: after a sequence of
callbacks that follows the disk lifecycle, the output has no phantom removal,
and every identifier that has appeared and not disappeared since is either
pending or announced. -/
theorem physicalRun_invariant (cs : List DiskCallback) (h : FollowsAppearance cs) :
    NoPhantomRemovals (physicalRun cs NotifierState.initial []).2 ∧
    ∀ id, AppearedIn id cs →
      UUIDSet.contains id (physicalRun cs NotifierState.initial []).1.mDisksPendingPath = true ∨
      AnnouncedIn id (physicalRun cs NotifierState.initial []).2 := by
  induction cs using List.reverseRecOn with
  | nil =>
    refine ⟨noPhantomRemovals_nil, ?_⟩
    rintro id ⟨pre, a, post, heq, _⟩
    simp at heq
  | append_singleton cs c ih =>
    obtain ⟨hcs, hc⟩ := followsAppearance_of_snoc cs c h
    obtain ⟨ihN, ihA⟩ := ih hcs
    rw [physicalRun_snoc]
    generalize physicalRun cs NotifierState.initial [] = acc at ihN ihA ⊢
    obtain ⟨s, out⟩ := acc
    simp only at ihN ihA ⊢
    cases stepEffect c s with
    | ignored hs ht hca hcd =>
      rw [hs, ht, List.append_nil]
      refine ⟨ihN, ?_⟩
      intro id hid
      rcases appearedIn_of_snoc id cs c hid with ⟨h1, h2, _⟩ | ⟨h1, _⟩
      · exact absurd ⟨h1, h2⟩ hca
      · exact ihA id h1
    | announced r hr hs ht hcd =>
      rw [hs, ht]
      refine ⟨noPhantomRemovals_snoc out _ ihN (by simp [hr]), ?_⟩
      intro id hid
      rcases appearedIn_of_snoc id cs c hid with ⟨_, _, h3⟩ | ⟨h1, _⟩
      · right
        rw [h3]
        exact announcedIn_snoc_added id out r hr
      · rcases ihA id h1 with hp | ha
        · exact Or.inl hp
        · exact Or.inr (announcedIn_snoc_keep id out _ ha (by simp [hr]))
    | deferred hs ht hcd =>
      rw [hs, ht, List.append_nil]
      refine ⟨ihN, ?_⟩
      intro id hid
      rcases appearedIn_of_snoc id cs c hid with ⟨_, _, h3⟩ | ⟨h1, _⟩
      · left
        rw [h3]
        exact UUIDSet.contains_insert_self id _
      · rcases ihA id h1 with hp | ha
        · exact Or.inl (UUIDSet.contains_insert_of_contains id _ _ hp)
        · exact Or.inr ha
    | resolved r hr hs ht hca hcd =>
      rw [hs, ht]
      refine ⟨noPhantomRemovals_snoc out _ ihN (by simp [hr]), ?_⟩
      intro id hid
      rcases appearedIn_of_snoc id cs c hid with ⟨h1, h2, _⟩ | ⟨h1, _⟩
      · exact absurd ⟨h1, h2⟩ hca
      · by_cases hne : id = c.uuid
        · right
          rw [hne]
          exact announcedIn_snoc_added c.uuid out r hr
        · rcases ihA id h1 with hp | ha
          · exact Or.inl (UUIDSet.contains_erase_of_ne id _ _ hne hp)
          · exact Or.inr (announcedIn_snoc_keep id out _ ha (by simp [hr]))
    | dropped hs ht hca hcd =>
      rw [hs, ht, List.append_nil]
      refine ⟨ihN, ?_⟩
      intro id hid
      rcases appearedIn_of_snoc id cs c hid with ⟨h1, h2, _⟩ | ⟨h1, h2⟩
      · exact absurd ⟨h1, h2⟩ hca
      · have hne : ¬ id = c.uuid := fun he => h2 ⟨hcd.1, hcd.2, he.symm⟩
        rcases ihA id h1 with hp | ha
        · exact Or.inl (UUIDSet.contains_erase_of_ne id _ _ hne hp)
        · exact Or.inr ha
    | removed r hp hs ht hca hcd =>
      rw [hs, ht]
      have hann : AnnouncedIn c.uuid out := by
        rcases ihA c.uuid (hc hcd.1 hcd.2) with hp2 | ha
        · rw [hp] at hp2
          exact absurd hp2 (by decide)
        · exact ha
      refine ⟨noPhantomRemovals_snoc out _ ihN (fun _ => hann), ?_⟩
      intro id hid
      rcases appearedIn_of_snoc id cs c hid with ⟨h1, h2, _⟩ | ⟨h1, h2⟩
      · exact absurd ⟨h1, h2⟩ hca
      · have hne : ¬ c.uuid = id := fun he => h2 ⟨hcd.1, hcd.2, he⟩
        rcases ihA id h1 with hp2 | ha
        · exact Or.inl hp2
        · exact Or.inr (announcedIn_snoc_keep id out _ ha (by simp [hne]))

/-- C2, as the claim states it, fails: a `Disappeared` for a disk that passes
the filter and is not pending, delivered first, emits a `Removed` that no
`Added` precedes. -/
theorem removal_without_announcement :
    physicalTrace [DiskCallback.disappeared diskU1] =
      [(CFUUIDBytes.ofLast 1,
        { mountPath := "/Volumes/USB1", displayName := "USB1",
          kind := DriveKind.physical, event := DriveEvent.removed })] ∧
    ¬ NoPhantomRemovals (physicalTrace [DiskCallback.disappeared diskU1]) := by
  have ht : physicalTrace [DiskCallback.disappeared diskU1] =
      [(CFUUIDBytes.ofLast 1,
        { mountPath := "/Volumes/USB1", displayName := "USB1",
          kind := DriveKind.physical, event := DriveEvent.removed })] := by
    decide
  refine ⟨ht, ?_⟩
  intro h
  rw [ht] at h
  obtain ⟨pre, r, post, heq, _⟩ := h [] _ [] rfl rfl
  simp at heq

/-- C2, amended: no phantom removals along the disk lifecycle. For every
sequence of callbacks delivered to the physical strategy from its initial state
in which each `Disappeared` that passes the filter comes after an `Appeared`
for the same identifier that passed the filter, with no `Disappeared` for that
identifier (passing the filter) in between, every emitted `Removed` for an
identifier is preceded in the output by an emitted `Added` for that identifier
with no other `Removed` for it in between. -/
theorem no_phantom_removals (cs : List DiskCallback) (h : FollowsAppearance cs) :
    NoPhantomRemovals (physicalTrace cs) :=
  (physicalRun_invariant cs h).1

/-- Witness for C2, amended: the hot-plug lifecycle of the disk U2 emits an
`Added` and then a `Removed`. -/
theorem no_phantom_removals_witness :
    FollowsAppearance hotPlugU2 ∧
    physicalTrace hotPlugU2 =
      [(CFUUIDBytes.ofLast 2,
        { mountPath := "/Volumes/Photos", displayName := "Photos",
          kind := DriveKind.physical, event := DriveEvent.added }),
       (CFUUIDBytes.ofLast 2,
        { mountPath := "/Volumes/Photos", displayName := "Photos",
          kind := DriveKind.physical, event := DriveEvent.removed })] ∧
    NoPhantomRemovals (physicalTrace hotPlugU2) :=
  have hf : FollowsAppearance hotPlugU2 :=
    followsAppearance_snoc
      [DiskCallback.appeared diskU2Unmounted,
        DiskCallback.descriptionChanged diskU2Mounted (some ["DAVolumePath"])]
      (DiskCallback.disappeared diskU2Mounted)
      (followsAppearance_snoc [DiskCallback.appeared diskU2Unmounted]
        (DiskCallback.descriptionChanged diskU2Mounted (some ["DAVolumePath"]))
        (followsAppearance_snoc [] (DiskCallback.appeared diskU2Unmounted)
          followsAppearance_nil (fun h => absurd h (by decide)))
        (fun h => absurd h (by decide)))
      (fun _ _ =>
        ⟨[], DiskCallback.appeared diskU2Unmounted,
          [DiskCallback.descriptionChanged diskU2Mounted (some ["DAVolumePath"])], rfl,
          ⟨rfl, by decide, by decide⟩, by decide⟩)
  ⟨hf, by decide, no_phantom_removals hotPlugU2 hf⟩

end mega
